import Mathlib

/-!
Shallow embedding of `src/takram/graphics/path2.h` (the `Path<T, 2>` class)
and proofs about its builder operations, `bounds()`, `direction()` and
`reverse()`.

Scalar model: the instantiation `Path2i = Path2<int>` is modelled with
mathematical `Int` for coordinates and sums (comparisons and equality are
exact, as in C++; the only places the finite machine range matters are the
`std::numeric_limits<int>::max()/lowest()` sentinels of `bounds()`, which
are kept as the explicit constants `intMax` / `intLowest`).

`command.h`, `math/vector.h` and `math/rect.h` are not part of the sources;
the `Vec2`, `Command` and `Rect` value types are modelled from the spec
(sections 3 and 6).
-/

namespace Takram

/-- Modelled from the spec: `math/vector.h` is missing from the sources; the
spec (section 6) describes a 2D coordinate value with `x`/`y` fields,
equality, and a 2D cross-product operation. -/
structure Vec2 where
  x : Int
  y : Int
deriving DecidableEq

/-- Modelled from the spec: the 2D cross product (signed parallelogram
area contribution) of `math/vector.h`. -/
def Vec2.cross (a b : Vec2) : Int := a.x * b.y - a.y * b.x

/-- The default-constructed point `Point()`, i.e. the origin. -/
def origin : Vec2 := ⟨0, 0⟩

/-- Command kinds, `Command<T, 2>::Kind` (spec section 3). -/
inductive Kind where
  | MOVE
  | LINE
  | QUADRATIC
  | CUBIC
  | CLOSE
deriving DecidableEq

/-- Modelled from the spec: `takram/graphics/command.h` is missing from the
sources.  Per spec section 3 a command is a value type holding a `kind`, a
terminal on-curve `point` (absent/ignored for CLOSE), and control points
`control`/`control1`, `control2` (one for QUADRATIC, two for CUBIC, absent
otherwise).  Absent fields hold the default-constructed point (the origin),
matching the spec's constructors (section 6): kind alone, kind+point,
kind+control+point, kind+control1+control2+point. -/
structure Command where
  kind : Kind
  point : Vec2
  control1 : Vec2
  control2 : Vec2
deriving DecidableEq

/-- The `control()` accessor is the same storage as `control1()`
(spec section 3 names them \x22control / control1\x22). -/
def Command.control (c : Command) : Vec2 := c.control1

/-- Constructor `Command(Kind::MOVE, point)`. -/
def mkMove (p : Vec2) : Command := ⟨Kind.MOVE, p, origin, origin⟩

/-- Constructor `Command(Kind::LINE, point)`. -/
def mkLine (p : Vec2) : Command := ⟨Kind.LINE, p, origin, origin⟩

/-- Constructor `Command(Kind::QUADRATIC, control, point)`. -/
def mkQuadratic (c p : Vec2) : Command := ⟨Kind.QUADRATIC, p, c, origin⟩

/-- Constructor `Command(Kind::CUBIC, control1, control2, point)`. -/
def mkCubic (c1 c2 p : Vec2) : Command := ⟨Kind.CUBIC, p, c1, c2⟩

/-- Constructor `Command(Kind::CLOSE)`: a CLOSE command carries no explicit
point, so every coordinate field holds the default origin. -/
def mkClose : Command := ⟨Kind.CLOSE, origin, origin, origin⟩

/-- `Path2<T>::Direction` (path2.h lines 66-70). -/
inductive Direction where
  | UNDEFINED
  | CLOCKWISE
  | COUNTER_CLOCKWISE
deriving DecidableEq

/-- `Path<T, 2>` state (path2.h lines 135-137): the command vector and the
mutable cached direction field `direction_` (declared, but never read or
written by any member function after construction). -/
structure Path where
  commands_ : List Command
  direction_ : Direction
deriving DecidableEq

/-- `Path2<T>::Path()` (line 147): empty commands, `direction_` initialised
to UNDEFINED. -/
def emptyPath : Path := ⟨[], Direction.UNDEFINED⟩

/-- `Path2<T>::Path(const std::vector<Command>&)` (lines 149-152). -/
def pathOf (cs : List Command) : Path := ⟨cs, Direction.UNDEFINED⟩

/-- `Path2<T>::operator==` (lines 168-171): compares only `commands_`
(the cached `direction_` does not participate). -/
def pathEq (a b : Path) : Bool := decide (a.commands_ = b.commands_)

/-! ### Builder operations (path2.h lines 252-321) -/

/-- Core of `Path2<T>::close()` (lines 252-257) on a non-empty command
vector: append CLOSE unless the back command is already CLOSE.  (On an
empty vector the C++ `commands_.back()` is a precondition violation; the
public entry point `Path.close?` models that fault.) -/
def closeCmds (l : List Command) : List Command :=
  if (l.getLast?).map Command.kind = some Kind.CLOSE then l else l ++ [mkClose]

/-- `Path2<T>::close()` (lines 252-257).  `commands_.back()` on an empty
vector is the fault branch (assertion/UB in C++), modelled as `none`. -/
def Path.close? (p : Path) : Option Path :=
  match p.commands_ with
  | [] => none
  | _ :: _ => some { p with commands_ := closeCmds p.commands_ }

/-- `Path2<T>::moveTo(const Point&)` (lines 264-268): clears all commands
and starts over with a single MOVE. -/
def Path.moveTo (p : Path) (pt : Vec2) : Path :=
  { p with commands_ := [mkMove pt] }

/-- `Path2<T>::lineTo(const Point&)` (lines 275-285): `moveTo` when empty,
otherwise append LINE and auto-close when the new point equals the front
command's point. -/
def Path.lineTo (p : Path) (pt : Vec2) : Path :=
  match p.commands_ with
  | [] => p.moveTo pt
  | front :: _ =>
    let cs := p.commands_ ++ [mkLine pt]
    { p with commands_ := if pt = front.point then closeCmds cs else cs }

/-- `Path2<T>::quadraticTo(const Point&, const Point&)` (lines 292-302). -/
def Path.quadraticTo (p : Path) (c pt : Vec2) : Path :=
  match p.commands_ with
  | [] => p.moveTo pt
  | front :: _ =>
    let cs := p.commands_ ++ [mkQuadratic c pt]
    { p with commands_ := if pt = front.point then closeCmds cs else cs }

/-- `Path2<T>::cubicTo(const Point&, const Point&, const Point&)`
(lines 309-321). -/
def Path.cubicTo (p : Path) (c1 c2 pt : Vec2) : Path :=
  match p.commands_ with
  | [] => p.moveTo pt
  | front :: _ =>
    let cs := p.commands_ ++ [mkCubic c1 c2 pt]
    { p with commands_ := if pt = front.point then closeCmds cs else cs }

/-! ### bounds() (path2.h lines 180-248) -/

/-- `std::numeric_limits<int>::max()` for the `Path2i` instantiation. -/
def intMax : Int := 2147483647

/-- `std::numeric_limits<int>::lowest()` for the `Path2i` instantiation. -/
def intLowest : Int := -2147483648

/-- The four running accumulators of `bounds()` (lines 182-185). -/
structure Bnds where
  min_x : Int
  min_y : Int
  max_x : Int
  max_y : Int
deriving DecidableEq

/-- Modelled from the spec: `math/rect.h` is missing from the sources; per
spec section 6 a rectangle is constructed from a min-corner point and a
max-corner point. -/
structure Rect where
  min : Vec2
  max : Vec2
deriving DecidableEq

/-- One point folded into the accumulators: transcribes the four `if`
statements used for each coordinate pair in `bounds()`
(e.g. lines 189-200 for `control2`). -/
def foldPoint (b : Bnds) (v : Vec2) : Bnds :=
  { min_x := if v.x < b.min_x then v.x else b.min_x
    min_y := if v.y < b.min_y then v.y else b.min_y
    max_x := if v.x > b.max_x then v.x else b.max_x
    max_y := if v.y > b.max_y then v.y else b.max_y }

/-- One loop iteration of `bounds()` (lines 186-234): the `switch` with
fall-through — CUBIC folds `control2` then falls into the QUADRATIC case
(`control`) then into the MOVE/LINE case (`point`); CLOSE hits `default`
and contributes nothing. -/
def boundsStep (b : Bnds) (c : Command) : Bnds :=
  match c.kind with
  | Kind.CUBIC => foldPoint (foldPoint (foldPoint b c.control2) c.control1) c.point
  | Kind.QUADRATIC => foldPoint (foldPoint b c.control1) c.point
  | Kind.MOVE => foldPoint b c.point
  | Kind.LINE => foldPoint b c.point
  | Kind.CLOSE => b

/-- The sentinel start values of the accumulators (lines 182-185). -/
def sentinelBnds : Bnds := ⟨intMax, intMax, intLowest, intLowest⟩

/-- `Path2<T>::bounds()` (lines 180-248) on the command list: run the loop,
then replace any accumulator equal to its sentinel by `T()` (zero)
(lines 235-246) and build the rectangle (line 247). -/
def boundsList (l : List Command) : Rect :=
  let b := l.foldl boundsStep sentinelBnds
  ⟨⟨if b.min_x = intMax then 0 else b.min_x,
    if b.min_y = intMax then 0 else b.min_y⟩,
   ⟨if b.max_x = intLowest then 0 else b.max_x,
    if b.max_y = intLowest then 0 else b.max_y⟩⟩

/-- `Path2<T>::bounds()` lifted to the path state. -/
def Path.bounds (p : Path) : Rect := boundsList p.commands_

/-! ### direction() (path2.h lines 325-349) -/

/-- One iteration of the `direction()` loop (lines 333-346): the
contribution of the consecutive pair `(a, b)`, where `front` is the path's
first command.  For LINE/QUADRATIC/CUBIC seconds the code adds
`first->point().cross(second->point())`; for CLOSE seconds it adds
`second->point().cross(commands_.front().point())` — note that it reads
the CLOSE command's own stored point.  A MOVE second reaches the
`default: assert(false)` branch; with assertions compiled out the release
build adds nothing there, which is what the total model returns. -/
def pairContrib (front a b : Command) : Int :=
  match b.kind with
  | Kind.LINE => Vec2.cross a.point b.point
  | Kind.QUADRATIC => Vec2.cross a.point b.point
  | Kind.CUBIC => Vec2.cross a.point b.point
  | Kind.CLOSE => Vec2.cross b.point front.point
  | Kind.MOVE => 0

/-- The `(first, second)` two-iterator loop of `direction()`
(lines 331-347), summing `pairContrib` over adjacent pairs. -/
def sumLoop (front : Command) : List Command → Int
  | a :: b :: rest => pairContrib front a b + sumLoop front (b :: rest)
  | _ => 0

/-- The final value of `sum` in `direction()` (lines 330-347). -/
def directionSum : List Command → Int
  | [] => 0
  | f :: rest => sumLoop f (f :: rest)

/-- `Path2<T>::direction()` (lines 325-349) on the command list: UNDEFINED
for fewer than 3 commands, else COUNTER_CLOCKWISE iff the sum is strictly
negative, CLOCKWISE otherwise (line 348). -/
def directionList (l : List Command) : Direction :=
  if l.length < 3 then Direction.UNDEFINED
  else if directionSum l < 0 then Direction.COUNTER_CLOCKWISE
  else Direction.CLOCKWISE

/-- `Path2<T>::direction()` lifted to the path state. -/
def Path.direction (p : Path) : Direction := directionList p.commands_

/-- The `const` member call `direction()` as a state transformer: it
computes the classification from `commands_` and performs no writes, so the
resulting state is the receiver unchanged (the mutable `direction_` cache
is neither read nor written anywhere in lines 325-349). -/
def Path.directionRun (p : Path) : Direction × Path :=
  (directionList p.commands_, p)

/-! ### reverse() (path2.h lines 352-407) -/

/-- The geometric-role points of one command, in the order the extraction
loop of `reverse()` (lines 353-372) pushes them: MOVE/LINE push `point`;
QUADRATIC pushes `control1` then `point`; CUBIC pushes `control1`,
`control2`, `point`; CLOSE pushes nothing. -/
def rolePts (c : Command) : List Vec2 :=
  match c.kind with
  | Kind.MOVE => [c.point]
  | Kind.LINE => [c.point]
  | Kind.QUADRATIC => [c.control1, c.point]
  | Kind.CUBIC => [c.control1, c.control2, c.point]
  | Kind.CLOSE => []

/-- The flat point list `points` collected by the first loop of
`reverse()` (lines 353-372). -/
def extractPoints : List Command → List Vec2
  | [] => []
  | c :: rest => rolePts c ++ extractPoints rest

/-- The in-place command permutation of `reverse()` (lines 373-378): if the
back command is CLOSE, reverse the interval between the first command and
the trailing CLOSE, both excluded; otherwise reverse everything after the
first command.  (On an empty path `commands_.back()` is a precondition
violation in C++; the model returns the list unchanged there, and no
theorem below depends on that case.) -/
def permute (l : List Command) : List Command :=
  match l with
  | [] => []
  | c0 :: rest =>
    match rest.getLast? with
    | none => [c0]
    | some back =>
      if back.kind = Kind.CLOSE
      then c0 :: (rest.dropLast.reverse ++ [back])
      else c0 :: rest.reverse

/-- One step of the reassignment loop of `reverse()` (lines 380-399):
consume the role points of one command from the iterator, in the same
per-kind order used by extraction (MOVE/LINE write `point`; QUADRATIC
writes `control1` then `point`; CUBIC writes `control1`, `control2`,
`point`; CLOSE consumes nothing).  An exhausted point list would be an
out-of-range iterator dereference in C++; the model leaves the command
unchanged there, and the case is unreachable from `reverseCmds`. -/
def assignOne (c : Command) (pts : List Vec2) : Command × List Vec2 :=
  match c.kind with
  | Kind.MOVE =>
    match pts with
    | q :: qs => ({ c with point := q }, qs)
    | [] => (c, [])
  | Kind.LINE =>
    match pts with
    | q :: qs => ({ c with point := q }, qs)
    | [] => (c, [])
  | Kind.QUADRATIC =>
    match pts with
    | q1 :: q2 :: qs => ({ c with control1 := q1, point := q2 }, qs)
    | _ => (c, [])
  | Kind.CUBIC =>
    match pts with
    | q1 :: q2 :: q3 :: qs => ({ c with control1 := q1, control2 := q2, point := q3 }, qs)
    | _ => (c, [])
  | Kind.CLOSE => (c, pts)

/-- The reassignment loop of `reverse()` (lines 380-399) over the whole
command list, threading the point iterator. -/
def assign : List Command → List Vec2 → List Command
  | [], _ => []
  | c :: rest, pts => (assignOne c pts).1 :: assign rest (assignOne c pts).2

/-- `Path2<T>::reverse()` (lines 352-402) on the command list: extract the
role points from the original commands, permute the commands in place,
reverse the point list (line 379), and reassign. -/
def reverseCmds (l : List Command) : List Command :=
  assign (permute l) (extractPoints l).reverse

/-- `Path2<T>::reverse()` (lines 352-402): mutates only `commands_`. -/
def Path.reverse (p : Path) : Path :=
  { p with commands_ := reverseCmds p.commands_ }

/-- `Path2<T>::reversed()` (lines 404-407): copy, then reverse the copy
(the copy duplicates both fields, and `reverse()` leaves `direction_`
untouched). -/
def Path.reversed (p : Path) : Path := p.reverse

/-! ### Canonical form of valid paths

The spec's construction invariants (section 3): the first command is a
MOVE, the interior commands are LINE/QUADRATIC/CUBIC segments, at most one
trailing CLOSE, a CLOSE carries no explicit point, and unused control
fields hold the default point.  Such paths are exactly the images of
`toCommands`. -/

/-- A drawing segment of a single-subpath: the data carried by one interior
LINE/QUADRATIC/CUBIC command. -/
inductive Seg where
  | line (p : Vec2)
  | quad (c p : Vec2)
  | cubic (c1 c2 p : Vec2)
deriving DecidableEq

/-- Terminal on-curve point of a segment. -/
def segEnd : Seg → Vec2
  | Seg.line p => p
  | Seg.quad _ p => p
  | Seg.cubic _ _ p => p

/-- The command a segment denotes. -/
def segCmd : Seg → Command
  | Seg.line p => mkLine p
  | Seg.quad c p => mkQuadratic c p
  | Seg.cubic c1 c2 p => mkCubic c1 c2 p

/-- Control points of a segment, in role order. -/
def segCtrls : Seg → List Vec2
  | Seg.line _ => []
  | Seg.quad c _ => [c]
  | Seg.cubic c1 c2 _ => [c1, c2]

/-- Role points of a segment: controls in order, then the terminal. -/
def segPts (s : Seg) : List Vec2 := segCtrls s ++ [segEnd s]

/-- Role points of a list of segments, concatenated. -/
def segsPts : List Seg → List Vec2
  | [] => []
  | s :: rest => segPts s ++ segsPts rest

/-- Re-anchor a segment onto a new terminal point, swapping the control
point roles as direction of travel reverses (spec section 4.4): a cubic
`C1,C2 → p` becomes `C2,C1 → q`. -/
def flipOnto : Seg → Vec2 → Seg
  | Seg.line _, q => Seg.line q
  | Seg.quad c _, q => Seg.quad c q
  | Seg.cubic c1 c2 _, q => Seg.cubic c2 c1 q

/-- The terminal point of the last segment, or the start point when there
are no segments. -/
def lastEnd (p0 : Vec2) : List Seg → Vec2
  | [] => p0
  | s :: rest => lastEnd (segEnd s) rest

/-- Specification-level reversal of a segment chain starting at `p0`: the
segments in reverse order, each re-anchored onto its predecessor's
endpoint with control roles swapped. -/
def revSegs (p0 : Vec2) : List Seg → List Seg
  | [] => []
  | s :: rest => revSegs (segEnd s) rest ++ [flipOnto s p0]

/-- Control points of a segment in reversed role order. -/
def ctrlsRev (s : Seg) : List Vec2 := (segCtrls s).reverse

/-- The reversed role-point list of a segment chain with the leading
terminal removed and the start point appended: the part of the reversed
point list that the segment commands (not the MOVE) consume during
reassignment. -/
def tailPts (p0 : Vec2) : List Seg → List Vec2
  | [] => []
  | s :: rest => tailPts (segEnd s) rest ++ (ctrlsRev s ++ [p0])

/-- The canonical command list of a valid single-subpath: a leading MOVE,
the segment commands, and an optional trailing CLOSE. -/
def toCommands (p0 : Vec2) (segs : List Seg) (closed : Bool) : List Command :=
  mkMove p0 :: segs.map segCmd ++ (if closed then [mkClose] else [])

/-- A valid path per the spec's construction invariants: its command list
is a canonical single-subpath. -/
def ValidPath (p : Path) : Prop :=
  ∃ p0 segs closed, p.commands_ = toCommands p0 segs closed

/-! ### Definitions following the claims' words (for comparison) -/

/-- Follows the claim's words (C1): the pair contribution where a CLOSE
second contributes the cross product of the previous command's point with
the first command's point. -/
def pairContribClaim (front a b : Command) : Int :=
  match b.kind with
  | Kind.LINE => Vec2.cross a.point b.point
  | Kind.QUADRATIC => Vec2.cross a.point b.point
  | Kind.CUBIC => Vec2.cross a.point b.point
  | Kind.CLOSE => Vec2.cross a.point front.point
  | Kind.MOVE => 0

/-- The loop of `direction()` with the claim's CLOSE contribution. -/
def sumLoopClaim (front : Command) : List Command → Int
  | a :: b :: rest => pairContribClaim front a b + sumLoopClaim front (b :: rest)
  | _ => 0

/-- The accumulated sum as the claim (C1) describes it. -/
def directionSumClaim : List Command → Int
  | [] => 0
  | f :: rest => sumLoopClaim f (f :: rest)

/-- An independent formulation of the code's accumulated sum, used to state
C4: the contributions of consecutive pairs obtained by zipping the list
with its tail. -/
def shoelaceZip (l : List Command) : Int :=
  match l with
  | [] => 0
  | f :: _ => ((l.zip l.tail).map (fun ab => pairContrib f ab.1 ab.2)).sum

/-- Chained cross-product sum of a point sequence (the shoelace sum of its
consecutive pairs); used to relate `directionSum` to the on-curve polygon. -/
def chainSum : List Vec2 → Int
  | a :: b :: rest => Vec2.cross a b + chainSum (b :: rest)
  | _ => 0

/-- The extra cross term gained by appending one point to a chain: the
cross product of the chain's last point (if any) with the new point. -/
def lastCross (xs : List Vec2) (y : Vec2) : Int :=
  match xs.getLast? with
  | none => 0
  | some z => Vec2.cross z y

/-- The opposite winding (C3's wording): CLOCKWISE and COUNTER_CLOCKWISE
swap, UNDEFINED stays. -/
def oppositeDir : Direction → Direction
  | Direction.CLOCKWISE => Direction.COUNTER_CLOCKWISE
  | Direction.COUNTER_CLOCKWISE => Direction.CLOCKWISE
  | Direction.UNDEFINED => Direction.UNDEFINED

/-- Follows the claim's words (C5): the per-kind lists of points folded
into the bounding accumulators — CUBIC: control2 then control then point;
QUADRATIC: control then point; MOVE/LINE: point; CLOSE: nothing. -/
def boundsPtsClaim (c : Command) : List Vec2 :=
  match c.kind with
  | Kind.CUBIC => [c.control2, c.control1, c.point]
  | Kind.QUADRATIC => [c.control1, c.point]
  | Kind.MOVE => [c.point]
  | Kind.LINE => [c.point]
  | Kind.CLOSE => []

/-- All points folded by `bounds()` over a command list, per the claim's
per-kind lists. -/
def allBoundsPts : List Command → List Vec2
  | [] => []
  | c :: rest => boundsPtsClaim c ++ allBoundsPts rest

/-- Plain per-axis running min/max folding of one point. -/
def foldMM (b : Bnds) (v : Vec2) : Bnds :=
  ⟨min b.min_x v.x, min b.min_y v.y, max b.max_x v.x, max b.max_y v.y⟩

/-- Follows the claim's words (C5): `bounds()` equals the per-axis running
min/max over the per-kind point lists, and only when no point is folded at
all are the accumulators (all still at their sentinels) replaced by zero. -/
def boundsClaim (l : List Command) : Rect :=
  let pts := allBoundsPts l
  if pts = [] then ⟨⟨0, 0⟩, ⟨0, 0⟩⟩
  else
    let b := pts.foldl foldMM sentinelBnds
    ⟨⟨b.min_x, b.min_y⟩, ⟨b.max_x, b.max_y⟩⟩

/-- The amended description of `bounds()` (C5): per-axis running min/max
over the per-kind point lists, with each accumulator that finishes equal
to its sentinel — whether because nothing was folded or because an actual
coordinate equals the extreme value — replaced by zero. -/
def boundsAmended (l : List Command) : Rect :=
  let b := (allBoundsPts l).foldl foldMM sentinelBnds
  ⟨⟨if b.min_x = intMax then 0 else b.min_x,
    if b.min_y = intMax then 0 else b.min_y⟩,
   ⟨if b.max_x = intLowest then 0 else b.max_x,
    if b.max_y = intLowest then 0 else b.max_y⟩⟩

/-! ### Builder call sequences (C6) -/

/-- One builder call (spec section 4.1). -/
inductive Op where
  | moveTo (p : Vec2)
  | lineTo (p : Vec2)
  | quadraticTo (c p : Vec2)
  | cubicTo (c1 c2 p : Vec2)
  | close
deriving DecidableEq

/-- Apply one builder call; `close` on an empty path is the fault case. -/
def applyOp (p : Path) : Op → Option Path
  | Op.moveTo q => some (p.moveTo q)
  | Op.lineTo q => some (p.lineTo q)
  | Op.quadraticTo c q => some (p.quadraticTo c q)
  | Op.cubicTo c1 c2 q => some (p.cubicTo c1 c2 q)
  | Op.close => p.close?

/-- Apply a sequence of builder calls left to right. -/
def applyOps (p : Path) : List Op → Option Path
  | [] => some p
  | o :: rest =>
    match applyOp p o with
    | none => none
    | some q => applyOps q rest

/-! ## Lemmas about segments and the canonical form -/

theorem segCmd_point (s : Seg) : (segCmd s).point = segEnd s := by
  cases s <;> rfl

theorem segCmd_kind_ne_close (s : Seg) : (segCmd s).kind ≠ Kind.CLOSE := by
  cases s <;> simp [segCmd, mkLine, mkQuadratic, mkCubic]

theorem rolePts_segCmd (s : Seg) : rolePts (segCmd s) = segPts s := by
  cases s <;> rfl

theorem segEnd_flipOnto (s : Seg) (q : Vec2) : segEnd (flipOnto s q) = q := by
  cases s <;> rfl

theorem flipOnto_flipOnto (s : Seg) (q : Vec2) :
    flipOnto (flipOnto s q) (segEnd s) = s := by
  cases s <;> rfl

theorem lastEnd_append (p0 : Vec2) (xs ys : List Seg) :
    lastEnd p0 (xs ++ ys) = lastEnd (lastEnd p0 xs) ys := by
  induction xs generalizing p0 with
  | nil => rfl
  | cons x xs ih => simp [lastEnd, ih]

theorem revSegs_append (p0 : Vec2) (xs ys : List Seg) :
    revSegs p0 (xs ++ ys) = revSegs (lastEnd p0 xs) ys ++ revSegs p0 xs := by
  induction xs generalizing p0 with
  | nil => simp [revSegs, lastEnd]
  | cons x xs ih => simp [revSegs, lastEnd, ih, List.append_assoc]

theorem lastEnd_revSegs (p0 : Vec2) (segs : List Seg) :
    lastEnd (lastEnd p0 segs) (revSegs p0 segs) = p0 := by
  induction segs generalizing p0 with
  | nil => rfl
  | cons s rest ih =>
    simp only [lastEnd, revSegs, lastEnd_append, ih]
    simp [lastEnd, segEnd_flipOnto]

theorem revSegs_revSegs (p0 : Vec2) (segs : List Seg) :
    revSegs (lastEnd p0 segs) (revSegs p0 segs) = segs := by
  induction segs generalizing p0 with
  | nil => rfl
  | cons s rest ih =>
    simp only [lastEnd, revSegs, revSegs_append, lastEnd_revSegs, ih]
    simp [revSegs, flipOnto_flipOnto, segEnd_flipOnto]

theorem length_revSegs (p0 : Vec2) (segs : List Seg) :
    (revSegs p0 segs).length = segs.length := by
  induction segs generalizing p0 with
  | nil => rfl
  | cons s rest ih => simp [revSegs, ih]

theorem length_toCommands (p0 : Vec2) (segs : List Seg) (closed : Bool) :
    (toCommands p0 segs closed).length
      = 1 + segs.length + (if closed then 1 else 0) := by
  cases closed <;> simp [toCommands] <;> omega

/-! ## Lemmas about the extraction stage of reverse() -/

theorem extractPoints_append (l1 l2 : List Command) :
    extractPoints (l1 ++ l2) = extractPoints l1 ++ extractPoints l2 := by
  induction l1 with
  | nil => rfl
  | cons c t ih => simp [extractPoints, ih, List.append_assoc]

theorem extractPoints_map_segCmd (segs : List Seg) :
    extractPoints (segs.map segCmd) = segsPts segs := by
  induction segs with
  | nil => rfl
  | cons s rest ih => simp [extractPoints, segsPts, rolePts_segCmd, ih]

theorem extract_toCommands (p0 : Vec2) (segs : List Seg) (closed : Bool) :
    extractPoints (toCommands p0 segs closed) = p0 :: segsPts segs := by
  cases closed <;>
    simp [toCommands, extractPoints, extractPoints_append,
      extractPoints_map_segCmd, rolePts, mkMove, mkClose]

/-! ## Lemmas about the permutation stage of reverse() -/

theorem getLast_opt_map {α β : Type} (f : α → β) :
    ∀ l : List α, (l.map f).getLast? = (l.getLast?).map f
  | [] => rfl
  | [_] => rfl
  | a :: b :: t => by
    rw [List.map_cons, List.map_cons, List.getLast?_cons_cons,
      List.getLast?_cons_cons, ← List.map_cons]
    exact getLast_opt_map f (b :: t)

theorem permute_toCommands (p0 : Vec2) (segs : List Seg) (closed : Bool) :
    permute (toCommands p0 segs closed)
      = mkMove p0 ::
          (segs.reverse.map segCmd ++ (if closed then [mkClose] else [])) := by
  cases closed with
  | true =>
    show permute (mkMove p0 :: (segs.map segCmd ++ [mkClose])) = _
    rw [permute, List.getLast?_concat]
    simp [mkClose, List.dropLast_concat, List.map_reverse]
  | false =>
    cases segs with
    | nil => rfl
    | cons s rest =>
      have h0 : toCommands p0 (s :: rest) false
          = mkMove p0 :: ((s :: rest).map segCmd) := by
        simp [toCommands]
      rw [h0, permute, getLast_opt_map]
      have hne : (s :: rest) ≠ ([] : List Seg) := by simp
      rw [List.getLast?_eq_getLast _ hne]
      simp [segCmd_kind_ne_close, List.map_reverse]

/-! ## Lemmas about the reassignment stage of reverse() -/

theorem split_pts (p0 : Vec2) (segs : List Seg) :
    (segsPts segs).reverse ++ [p0] = lastEnd p0 segs :: tailPts p0 segs := by
  induction segs generalizing p0 with
  | nil => rfl
  | cons s rest ih =>
    have h1 : (segsPts (s :: rest)).reverse ++ [p0]
        = (segsPts rest).reverse ++ (segEnd s :: (ctrlsRev s ++ [p0])) := by
      simp [segsPts, segPts, ctrlsRev, List.reverse_append, List.append_assoc]
    rw [h1, List.append_cons, ih (segEnd s)]
    simp [lastEnd, tailPts, List.append_assoc]

theorem assign_segs (segs : List Seg) :
    ∀ (p0 : Vec2) (tail : List Command) (extra : List Vec2),
      assign (segs.reverse.map segCmd ++ tail) (tailPts p0 segs ++ extra)
        = (revSegs p0 segs).map segCmd ++ assign tail extra := by
  induction segs with
  | nil => intro p0 tail extra; simp [tailPts, revSegs]
  | cons s rest ih =>
    intro p0 tail extra
    have h1 : (s :: rest).reverse.map segCmd ++ tail
        = rest.reverse.map segCmd ++ (segCmd s :: tail) := by
      simp [List.append_assoc]
    have h2 : tailPts p0 (s :: rest) ++ extra
        = tailPts (segEnd s) rest ++ (ctrlsRev s ++ (p0 :: extra)) := by
      simp [tailPts, List.append_assoc]
    rw [h1, h2, ih (segEnd s) (segCmd s :: tail) (ctrlsRev s ++ (p0 :: extra))]
    have h3 : assign (segCmd s :: tail) (ctrlsRev s ++ (p0 :: extra))
        = segCmd (flipOnto s p0) :: assign tail extra := by
      cases s <;> rfl
    rw [h3]
    simp [revSegs, List.append_assoc]

/-- The central structural fact about `reverse()`: on a canonical valid
path it produces the canonical valid path that starts at the old endpoint
and traverses the role-swapped segments backwards, keeping the trailing
CLOSE. -/
theorem reverseCmds_toCommands (p0 : Vec2) (segs : List Seg) (closed : Bool) :
    reverseCmds (toCommands p0 segs closed)
      = toCommands (lastEnd p0 segs) (revSegs p0 segs) closed := by
  unfold reverseCmds
  rw [extract_toCommands, permute_toCommands, List.reverse_cons, split_pts]
  have h1 : assign
      (mkMove p0 :: (segs.reverse.map segCmd ++ (if closed then [mkClose] else [])))
      (lastEnd p0 segs :: tailPts p0 segs)
      = mkMove (lastEnd p0 segs)
          :: assign (segs.reverse.map segCmd ++ (if closed then [mkClose] else []))
              (tailPts p0 segs) := by
    rfl
  rw [h1, ← List.append_nil (tailPts p0 segs), assign_segs]
  have h2 : assign (if closed then [mkClose] else []) [] =
      (if closed then [mkClose] else []) := by
    cases closed <;> rfl
  rw [h2]
  rfl

/-! ## Lemmas about the direction() sum -/

theorem cross_origin_left (v : Vec2) : Vec2.cross origin v = 0 := by
  simp [Vec2.cross, origin]

theorem cross_swap (a b : Vec2) : Vec2.cross b a = -Vec2.cross a b := by
  simp [Vec2.cross]; ring

theorem pairContrib_segCmd (front a : Command) (s : Seg) :
    pairContrib front a (segCmd s) = Vec2.cross a.point (segEnd s) := by
  cases s <;> rfl

theorem sumLoop_segs (front : Command) :
    ∀ (segs : List Seg) (a : Command) (ct : List Command),
      ct = [] ∨ ct = [mkClose] →
      sumLoop front (a :: (segs.map segCmd ++ ct))
        = chainSum (a.point :: segs.map segEnd) := by
  intro segs
  induction segs with
  | nil =>
    intro a ct hct
    rcases hct with h | h <;> subst h
    · rfl
    · show pairContrib front a mkClose + 0 = 0
      show Vec2.cross mkClose.point front.point + 0 = 0
      simp [mkClose, cross_origin_left]
  | cons s rest ih =>
    intro a ct hct
    show pairContrib front a (segCmd s)
          + sumLoop front (segCmd s :: (rest.map segCmd ++ ct))
        = chainSum (a.point :: segEnd s :: rest.map segEnd)
    rw [pairContrib_segCmd, ih (segCmd s) ct hct, segCmd_point]
    rfl

theorem directionSum_toCommands (p0 : Vec2) (segs : List Seg) (closed : Bool) :
    directionSum (toCommands p0 segs closed)
      = chainSum (p0 :: segs.map segEnd) := by
  show sumLoop (mkMove p0)
      (mkMove p0 :: (segs.map segCmd ++ (if closed then [mkClose] else [])))
    = _
  rw [sumLoop_segs (mkMove p0) segs (mkMove p0) _ (by cases closed <;> simp)]
  rfl

theorem map_segEnd_revSegs (p0 : Vec2) (segs : List Seg) :
    (revSegs p0 segs).map segEnd
      = ((p0 :: segs.map segEnd).dropLast).reverse := by
  induction segs generalizing p0 with
  | nil => rfl
  | cons s rest ih =>
    show (revSegs (segEnd s) rest ++ [flipOnto s p0]).map segEnd = _
    rw [List.map_append, ih (segEnd s)]
    simp [segEnd_flipOnto, List.dropLast_cons₂]

theorem chainSum_concat :
    ∀ (xs : List Vec2) (y : Vec2),
      chainSum (xs ++ [y]) = chainSum xs + lastCross xs y
  | [], y => by simp [chainSum, lastCross]
  | [a], y => by simp [chainSum, lastCross]
  | a :: b :: t, y => by
    show Vec2.cross a b + chainSum ((b :: t) ++ [y])
        = (Vec2.cross a b + chainSum (b :: t)) + lastCross (a :: b :: t) y
    rw [chainSum_concat (b :: t) y]
    have h : lastCross (a :: b :: t) y = lastCross (b :: t) y := by
      simp [lastCross, List.getLast?_cons_cons]
    rw [h]; ring

theorem chainSum_reverse : ∀ l : List Vec2, chainSum l.reverse = -chainSum l
  | [] => by simp [chainSum]
  | a :: r => by
    rw [List.reverse_cons, chainSum_concat, chainSum_reverse r]
    cases r with
    | nil => simp [chainSum, lastCross]
    | cons b r' =>
      have h : lastCross (b :: r').reverse a = Vec2.cross b a := by
        simp [lastCross, List.getLast?_reverse]
      rw [h, cross_swap]
      show -chainSum (b :: r') + -Vec2.cross a b
          = -(Vec2.cross a b + chainSum (b :: r'))
      ring

theorem reverse_eq_getLast_cons (L : List Vec2) (h : L ≠ []) :
    L.reverse = L.getLast h :: L.dropLast.reverse := by
  conv_lhs => rw [← List.dropLast_append_getLast h]
  rw [List.reverse_append]
  rfl

theorem lastEnd_eq_getLast (p0 : Vec2) (segs : List Seg) :
    lastEnd p0 segs
      = (p0 :: segs.map segEnd).getLast (List.cons_ne_nil p0 (segs.map segEnd)) := by
  induction segs generalizing p0 with
  | nil => rfl
  | cons s rest ih =>
    show lastEnd (segEnd s) rest = _
    rw [ih (segEnd s)]
    exact (List.getLast_cons (by simp)).symm

/-- The accumulated sum of a reversed canonical path is the negation of
the original path's sum. -/
theorem directionSum_reverse_toCommands (p0 : Vec2) (segs : List Seg)
    (closed : Bool) :
    directionSum (reverseCmds (toCommands p0 segs closed))
      = -directionSum (toCommands p0 segs closed) := by
  rw [reverseCmds_toCommands, directionSum_toCommands, directionSum_toCommands,
    map_segEnd_revSegs, lastEnd_eq_getLast,
    ← reverse_eq_getLast_cons (p0 :: segs.map segEnd) (by simp),
    chainSum_reverse]

/-! ## The loop sum as a zip over consecutive pairs (for C4) -/

theorem sumLoop_zip (front : Command) :
    ∀ l : List Command,
      sumLoop front l
        = ((l.zip l.tail).map (fun ab => pairContrib front ab.1 ab.2)).sum
  | [] => by simp [sumLoop]
  | [a] => by simp [sumLoop]
  | a :: b :: t => by
    show pairContrib front a b + sumLoop front (b :: t) = _
    rw [sumLoop_zip front (b :: t)]
    simp [List.zip_cons_cons]

theorem shoelaceZip_eq_directionSum (l : List Command) :
    shoelaceZip l = directionSum l := by
  cases l with
  | nil => rfl
  | cons f rest =>
    show ((( f :: rest).zip rest).map _).sum = sumLoop f (f :: rest)
    rw [sumLoop_zip f (f :: rest)]
    rfl

/-! ## The bounds() fold as a per-axis running min/max (for C5) -/

theorem foldPoint_eq_foldMM (b : Bnds) (v : Vec2) : foldPoint b v = foldMM b v := by
  have hx : (if v.x < b.min_x then v.x else b.min_x) = min b.min_x v.x := by
    rw [Int.min_def]; split_ifs <;> omega
  have hy : (if v.y < b.min_y then v.y else b.min_y) = min b.min_y v.y := by
    rw [Int.min_def]; split_ifs <;> omega
  have hX : (if v.x > b.max_x then v.x else b.max_x) = max b.max_x v.x := by
    rw [Int.max_def]; split_ifs <;> omega
  have hY : (if v.y > b.max_y then v.y else b.max_y) = max b.max_y v.y := by
    rw [Int.max_def]; split_ifs <;> omega
  unfold foldPoint foldMM
  rw [hx, hy, hX, hY]

theorem boundsStep_eq (b : Bnds) (c : Command) :
    boundsStep b c = (boundsPtsClaim c).foldl foldMM b := by
  cases hk : c.kind <;>
    simp [boundsStep, boundsPtsClaim, hk, foldPoint_eq_foldMM, List.foldl]

theorem foldl_boundsStep :
    ∀ (l : List Command) (b : Bnds),
      l.foldl boundsStep b = (allBoundsPts l).foldl foldMM b := by
  intro l
  induction l with
  | nil => intro b; rfl
  | cons c rest ih =>
    intro b
    show rest.foldl boundsStep (boundsStep b c) = _
    rw [ih, boundsStep_eq]
    show _ = (boundsPtsClaim c ++ allBoundsPts rest).foldl foldMM b
    rw [List.foldl_append]

/-! ## Builder invariants (for C6) -/

theorem head_closeCmds (c0 : Command) (t : List Command) :
    ∃ t', closeCmds (c0 :: t) = c0 :: t' := by
  unfold closeCmds
  split_ifs
  · exact ⟨t, rfl⟩
  · exact ⟨t ++ [mkClose], by simp⟩

theorem applyOp_cases (p q : Path) (o : Op) (h : applyOp p o = some q) :
    (∃ pt, q.commands_ = [mkMove pt])
      ∨ (q.commands_.head? = p.commands_.head? ∧ p.commands_ ≠ []) := by
  obtain ⟨cs, d⟩ := p
  cases o with
  | moveTo pt =>
    left
    exact ⟨pt, by cases h; rfl⟩
  | lineTo pt =>
    cases cs with
    | nil => left; exact ⟨pt, by cases h; rfl⟩
    | cons c0 t =>
      right
      cases h
      refine ⟨?_, by simp⟩
      show (if pt = c0.point then closeCmds ((c0 :: t) ++ [mkLine pt])
            else (c0 :: t) ++ [mkLine pt]).head? = _
      split_ifs
      · obtain ⟨t', ht'⟩ := head_closeCmds c0 (t ++ [mkLine pt])
        rw [List.cons_append, ht']; rfl
      · rfl
  | quadraticTo cc pt =>
    cases cs with
    | nil => left; exact ⟨pt, by cases h; rfl⟩
    | cons c0 t =>
      right
      cases h
      refine ⟨?_, by simp⟩
      show (if pt = c0.point then closeCmds ((c0 :: t) ++ [mkQuadratic cc pt])
            else (c0 :: t) ++ [mkQuadratic cc pt]).head? = _
      split_ifs
      · obtain ⟨t', ht'⟩ := head_closeCmds c0 (t ++ [mkQuadratic cc pt])
        rw [List.cons_append, ht']; rfl
      · rfl
  | cubicTo c1 c2 pt =>
    cases cs with
    | nil => left; exact ⟨pt, by cases h; rfl⟩
    | cons c0 t =>
      right
      cases h
      refine ⟨?_, by simp⟩
      show (if pt = c0.point then closeCmds ((c0 :: t) ++ [mkCubic c1 c2 pt])
            else (c0 :: t) ++ [mkCubic c1 c2 pt]).head? = _
      split_ifs
      · obtain ⟨t', ht'⟩ := head_closeCmds c0 (t ++ [mkCubic c1 c2 pt])
        rw [List.cons_append, ht']; rfl
      · rfl
  | close =>
    cases cs with
    | nil => exact absurd h (by simp [applyOp, Path.close?])
    | cons c0 t =>
      right
      have hq : q = ⟨closeCmds (c0 :: t), d⟩ := by
        have : Path.close? ⟨c0 :: t, d⟩ = some ⟨closeCmds (c0 :: t), d⟩ := rfl
        rw [show applyOp ⟨c0 :: t, d⟩ Op.close = Path.close? ⟨c0 :: t, d⟩ from rfl,
          this] at h
        exact (Option.some.injEq _ _ ▸ h).symm
      subst hq
      obtain ⟨t', ht'⟩ := head_closeCmds c0 t
      refine ⟨?_, by simp⟩
      rw [show (⟨closeCmds (c0 :: t), d⟩ : Path).commands_
        = closeCmds (c0 :: t) from rfl, ht']
      rfl

theorem applyOps_headIsMove :
    ∀ (ops : List Op) (p q : Path),
      (∀ c rest, p.commands_ = c :: rest → c.kind = Kind.MOVE) →
      applyOps p ops = some q →
      (∀ c rest, q.commands_ = c :: rest → c.kind = Kind.MOVE) := by
  intro ops
  induction ops with
  | nil =>
    intro p q hp h
    cases h
    exact hp
  | cons o os ih =>
    intro p q hp h
    cases hap : applyOp p o with
    | none => rw [applyOps, hap] at h; cases h
    | some r =>
      rw [applyOps, hap] at h
      refine ih r q ?_ h
      rcases applyOp_cases p r o hap with ⟨pt, hr⟩ | ⟨hh, hne⟩
      · intro c rest hcr
        rw [hr] at hcr
        cases hcr
        rfl
      · intro c rest hcr
        cases hpc : p.commands_ with
        | nil => exact absurd hpc hne
        | cons c0 t =>
          have : c0 = c := by
            have h1 : r.commands_.head? = some c0 := by rw [hh, hpc]; rfl
            rw [hcr] at h1
            exact (Option.some.inj h1).symm
          exact this ▸ hp c0 t hpc

theorem lastKind_closeCmds_append (l : List Command) (c : Command)
    (h : c.kind ≠ Kind.CLOSE) :
    ((closeCmds (l ++ [c])).getLast?).map Command.kind = some Kind.CLOSE := by
  unfold closeCmds
  rw [List.getLast?_concat]
  rw [if_neg (by simpa using h)]
  rw [List.getLast?_concat]
  rfl

/-! ## The claims -/

/-- C1: the claim states that for a CLOSE second of a consecutive pair,
`direction()` accumulates `cross(prev.point, first.point)`.  The code
(line 341) instead accumulates `cross(closeCmd.point(), first.point)`
using the CLOSE command's own stored point, which per the repository's own
data model is never set (a CLOSE carries no explicit point), so the
contribution is `cross(origin, first) = 0`.  On the builder-reachable
input `moveTo(10,0); lineTo(8,1); lineTo(0,10); close()` the code's sum is
90 (CLOCKWISE) while the claimed accumulation yields -10, i.e. the
geometrically correct COUNTER_CLOCKWISE: the code diverges from the
documented intent. -/
theorem c1_close_reads_stored_point :
    (((emptyPath.moveTo ⟨10, 0⟩).lineTo ⟨8, 1⟩).lineTo ⟨0, 10⟩).close?
        = some (pathOf [mkMove ⟨10, 0⟩, mkLine ⟨8, 1⟩, mkLine ⟨0, 10⟩, mkClose])
    ∧ directionSum [mkMove ⟨10, 0⟩, mkLine ⟨8, 1⟩, mkLine ⟨0, 10⟩, mkClose] = 90
    ∧ directionSumClaim [mkMove ⟨10, 0⟩, mkLine ⟨8, 1⟩, mkLine ⟨0, 10⟩, mkClose] = -10
    ∧ directionList [mkMove ⟨10, 0⟩, mkLine ⟨8, 1⟩, mkLine ⟨0, 10⟩, mkClose]
        = Direction.CLOCKWISE
    ∧ directionSumClaim [mkMove ⟨10, 0⟩, mkLine ⟨8, 1⟩, mkLine ⟨0, 10⟩, mkClose] < 0 := by
  decide

/-- C2: for every valid (non-empty) path, reversing twice restores the
original path under the structural equality `operator==` (which compares
the command sequences). -/
theorem c2_reversed_involution (p : Path) (h : ValidPath p) :
    pathEq (p.reversed.reversed) p = true := by
  obtain ⟨p0, segs, closed, hc⟩ := h
  have hcmd : (p.reversed.reversed).commands_ = p.commands_ := by
    show reverseCmds (reverseCmds p.commands_) = p.commands_
    rw [hc, reverseCmds_toCommands, reverseCmds_toCommands, revSegs_revSegs,
      lastEnd_revSegs]
  simp [pathEq, hcmd]

/-- Witness for C2 at a concrete valid path with one quadratic and one
cubic segment and a trailing CLOSE. -/
theorem c2_reversed_involution_witness :
    pathEq ((pathOf (toCommands ⟨0, 0⟩
          [Seg.quad ⟨5, -1⟩ ⟨7, 3⟩, Seg.cubic ⟨1, 2⟩ ⟨3, 4⟩ ⟨9, 9⟩] true)).reversed.reversed)
      (pathOf (toCommands ⟨0, 0⟩
          [Seg.quad ⟨5, -1⟩ ⟨7, 3⟩, Seg.cubic ⟨1, 2⟩ ⟨3, 4⟩ ⟨9, 9⟩] true)) = true :=
  c2_reversed_involution _
    ⟨⟨0, 0⟩, [Seg.quad ⟨5, -1⟩ ⟨7, 3⟩, Seg.cubic ⟨1, 2⟩ ⟨3, 4⟩ ⟨9, 9⟩], true, rfl⟩

/-- C3, counterexample to the claim as stated: the zero-area (colinear)
valid path `moveTo(0,0); lineTo(1,1); lineTo(2,2); close()` has defined
direction CLOCKWISE (the `sum >= 0` tie-break), and its reversal also has
direction CLOCKWISE — not the opposite winding. -/
theorem c3_zero_area_counterexample :
    directionList (toCommands ⟨0, 0⟩ [Seg.line ⟨1, 1⟩, Seg.line ⟨2, 2⟩] true)
        = Direction.CLOCKWISE
    ∧ (pathOf (toCommands ⟨0, 0⟩
          [Seg.line ⟨1, 1⟩, Seg.line ⟨2, 2⟩] true)).reversed.direction
        = Direction.CLOCKWISE := by
  decide

/-- C3 (amended): for every valid path with at least 3 commands whose
accumulated sum is nonzero, the reversed path's direction is the opposite
winding of the original's. -/
theorem c3_reversed_flips_direction (p0 : Vec2) (segs : List Seg) (closed : Bool)
    (h3 : 3 ≤ (toCommands p0 segs closed).length)
    (hnz : directionSum (toCommands p0 segs closed) ≠ 0) :
    (pathOf (toCommands p0 segs closed)).reversed.direction
      = oppositeDir ((pathOf (toCommands p0 segs closed)).direction) := by
  have hlen : (reverseCmds (toCommands p0 segs closed)).length
      = (toCommands p0 segs closed).length := by
    rw [reverseCmds_toCommands, length_toCommands, length_toCommands, length_revSegs]
  have hsum := directionSum_reverse_toCommands p0 segs closed
  show directionList (reverseCmds (toCommands p0 segs closed))
      = oppositeDir (directionList (toCommands p0 segs closed))
  unfold directionList
  rw [hlen, hsum]
  have hge : ¬ (toCommands p0 segs closed).length < 3 := by omega
  rw [if_neg hge, if_neg hge]
  rcases lt_or_gt_of_ne hnz with hlt | hgt
  · have h2 : ¬ (-directionSum (toCommands p0 segs closed) < 0) := by omega
    rw [if_pos hlt, if_neg h2]
    rfl
  · have h1 : ¬ (directionSum (toCommands p0 segs closed) < 0) := by omega
    have h2 : -directionSum (toCommands p0 segs closed) < 0 := by omega
    rw [if_pos h2, if_neg h1]
    rfl

/-- Witness for C3 at the explicitly closed triangle
`moveTo(10,0); lineTo(8,1); lineTo(0,10); close()`. -/
theorem c3_reversed_flips_direction_witness :
    3 ≤ (toCommands ⟨10, 0⟩ [Seg.line ⟨8, 1⟩, Seg.line ⟨0, 10⟩] true).length
    ∧ directionSum (toCommands ⟨10, 0⟩ [Seg.line ⟨8, 1⟩, Seg.line ⟨0, 10⟩] true) ≠ 0
    ∧ (pathOf (toCommands ⟨10, 0⟩
          [Seg.line ⟨8, 1⟩, Seg.line ⟨0, 10⟩] true)).reversed.direction
        = oppositeDir ((pathOf (toCommands ⟨10, 0⟩
            [Seg.line ⟨8, 1⟩, Seg.line ⟨0, 10⟩] true)).direction) :=
  ⟨by decide, by decide,
    c3_reversed_flips_direction ⟨10, 0⟩ [Seg.line ⟨8, 1⟩, Seg.line ⟨0, 10⟩] true
      (by decide) (by decide)⟩

/-- C4: `direction()` returns UNDEFINED exactly for paths with fewer than
3 commands; with at least 3 commands it returns COUNTER_CLOCKWISE exactly
when the accumulated sum (expressed independently as the sum of the
pair contributions over the list zipped with its tail) is strictly
negative, and CLOCKWISE otherwise — a sum of exactly zero yields
CLOCKWISE, never UNDEFINED. -/
theorem c4_direction_classification (l : List Command) :
    directionList l
      = if l.length < 3 then Direction.UNDEFINED
        else if shoelaceZip l < 0 then Direction.COUNTER_CLOCKWISE
        else Direction.CLOCKWISE := by
  rw [shoelaceZip_eq_directionSum]
  rfl

/-- C5, counterexample to the claim as stated: on the path
`[MOVE(intMax, 0)]` a point is folded, yet the final `min_x` accumulator
equals the sentinel `numeric_limits<int>::max()` and is therefore zeroed
by the normalization, so `bounds()` is not the per-axis running min/max
of the folded points (which would be the degenerate rectangle at
`(intMax, 0)`). -/
theorem c5_sentinel_counterexample :
    boundsList [mkMove ⟨intMax, 0⟩] = ⟨⟨0, 0⟩, ⟨intMax, 0⟩⟩
    ∧ boundsClaim [mkMove ⟨intMax, 0⟩] = ⟨⟨intMax, 0⟩, ⟨intMax, 0⟩⟩
    ∧ boundsList [mkMove ⟨intMax, 0⟩] ≠ boundsClaim [mkMove ⟨intMax, 0⟩] := by
  decide

/-- C5 (amended): `bounds()` equals the per-axis running min/max over
exactly the claimed per-kind point lists (CUBIC: control2, control, point;
QUADRATIC: control, point; MOVE/LINE: point; CLOSE: nothing), except that
every accumulator that finishes equal to its sentinel — in particular all
four of them when no point was folded at all — is replaced by the scalar
zero. -/
theorem c5_bounds_minmax_amended (l : List Command) :
    boundsList l = boundsAmended l := by
  unfold boundsList boundsAmended
  rw [foldl_boundsStep]

/-- C6: for every sequence of builder calls applied from the empty path
(with `close` only succeeding on non-empty paths), the resulting path's
first command is a MOVE; and `lineTo`/`quadraticTo`/`cubicTo` on the
empty path produce exactly one MOVE at the terminal point, discarding any
control points. -/
theorem c6_first_command_is_move (ops : List Op) (q : Path) (c : Command)
    (rest : List Command) (h1 : applyOps emptyPath ops = some q)
    (h2 : q.commands_ = c :: rest) (c1 c2 cc pt : Vec2) :
    c.kind = Kind.MOVE
    ∧ (emptyPath.lineTo pt).commands_ = [mkMove pt]
    ∧ (emptyPath.quadraticTo cc pt).commands_ = [mkMove pt]
    ∧ (emptyPath.cubicTo c1 c2 pt).commands_ = [mkMove pt] := by
  refine ⟨?_, rfl, rfl, rfl⟩
  exact applyOps_headIsMove ops emptyPath q
    (fun c' r' h => List.noConfusion h) h1 c rest h2

/-- Witness for C6 at the builder sequence
`cubicTo((0,0),(1,1),(3,4)); lineTo(5,5); close()`. -/
theorem c6_first_command_is_move_witness :
    (mkMove ⟨3, 4⟩).kind = Kind.MOVE
    ∧ (emptyPath.lineTo ⟨1, 2⟩).commands_ = [mkMove ⟨1, 2⟩]
    ∧ (emptyPath.quadraticTo ⟨9, 9⟩ ⟨1, 2⟩).commands_ = [mkMove ⟨1, 2⟩]
    ∧ (emptyPath.cubicTo ⟨0, 1⟩ ⟨2, 3⟩ ⟨1, 2⟩).commands_ = [mkMove ⟨1, 2⟩] :=
  c6_first_command_is_move
    [Op.cubicTo ⟨0, 0⟩ ⟨1, 1⟩ ⟨3, 4⟩, Op.lineTo ⟨5, 5⟩, Op.close]
    (pathOf [mkMove ⟨3, 4⟩, mkLine ⟨5, 5⟩, mkClose]) (mkMove ⟨3, 4⟩)
    [mkLine ⟨5, 5⟩, mkClose] (by decide) rfl ⟨0, 1⟩ ⟨2, 3⟩ ⟨9, 9⟩ ⟨1, 2⟩

/-- C7: `moveTo` on any path state discards all previously held commands
and leaves exactly the single command MOVE(pt). -/
theorem c7_moveTo_discards (p : Path) (pt : Vec2) :
    (p.moveTo pt).commands_ = [mkMove pt] := rfl

/-- C8: on every non-empty path, appending a terminal point equal to the
first command's point via `lineTo`/`quadraticTo`/`cubicTo` leaves the last
command CLOSE (auto-close), and `close()` on a path whose last command is
already CLOSE changes nothing. -/
theorem c8_autoclose_and_idempotence (p : Path) (front : Command)
    (rest : List Command) (hc : p.commands_ = front :: rest) (c1 c2 : Vec2)
    (q : Path) (hq : (q.commands_.getLast?).map Command.kind = some Kind.CLOSE) :
    ((p.lineTo front.point).commands_.getLast?).map Command.kind = some Kind.CLOSE
    ∧ ((p.quadraticTo c1 front.point).commands_.getLast?).map Command.kind
        = some Kind.CLOSE
    ∧ ((p.cubicTo c1 c2 front.point).commands_.getLast?).map Command.kind
        = some Kind.CLOSE
    ∧ q.close? = some q := by
  obtain ⟨cs, d⟩ := p
  change cs = front :: rest at hc
  subst hc
  refine ⟨?_, ?_, ?_, ?_⟩
  · show (((if front.point = front.point
        then closeCmds ((front :: rest) ++ [mkLine front.point])
        else (front :: rest) ++ [mkLine front.point])).getLast?).map Command.kind
      = some Kind.CLOSE
    rw [if_pos rfl]
    exact lastKind_closeCmds_append (front :: rest) (mkLine front.point)
      (by simp [mkLine])
  · show (((if front.point = front.point
        then closeCmds ((front :: rest) ++ [mkQuadratic c1 front.point])
        else (front :: rest) ++ [mkQuadratic c1 front.point])).getLast?).map
          Command.kind
      = some Kind.CLOSE
    rw [if_pos rfl]
    exact lastKind_closeCmds_append (front :: rest) (mkQuadratic c1 front.point)
      (by simp [mkQuadratic])
  · show (((if front.point = front.point
        then closeCmds ((front :: rest) ++ [mkCubic c1 c2 front.point])
        else (front :: rest) ++ [mkCubic c1 c2 front.point])).getLast?).map
          Command.kind
      = some Kind.CLOSE
    rw [if_pos rfl]
    exact lastKind_closeCmds_append (front :: rest) (mkCubic c1 c2 front.point)
      (by simp [mkCubic])
  · obtain ⟨qcs, qd⟩ := q
    cases qcs with
    | nil => simp at hq
    | cons q0 qt =>
      show some (⟨closeCmds (q0 :: qt), qd⟩ : Path) = some ⟨q0 :: qt, qd⟩
      rw [show closeCmds (q0 :: qt) = q0 :: qt from by
        unfold closeCmds
        rw [if_pos hq]]

/-- Witness for C8 at the two-command path `[MOVE(0,0), LINE(4,0)]` and
the already-closed path `[MOVE(0,0), CLOSE]`. -/
theorem c8_autoclose_and_idempotence_witness :
    (((pathOf [mkMove ⟨0, 0⟩, mkLine ⟨4, 0⟩]).lineTo
        (mkMove ⟨0, 0⟩).point).commands_.getLast?).map Command.kind
      = some Kind.CLOSE
    ∧ (((pathOf [mkMove ⟨0, 0⟩, mkLine ⟨4, 0⟩]).quadraticTo ⟨1, 1⟩
        (mkMove ⟨0, 0⟩).point).commands_.getLast?).map Command.kind
      = some Kind.CLOSE
    ∧ (((pathOf [mkMove ⟨0, 0⟩, mkLine ⟨4, 0⟩]).cubicTo ⟨1, 1⟩ ⟨2, 2⟩
        (mkMove ⟨0, 0⟩).point).commands_.getLast?).map Command.kind
      = some Kind.CLOSE
    ∧ (pathOf [mkMove ⟨0, 0⟩, mkClose]).close?
      = some (pathOf [mkMove ⟨0, 0⟩, mkClose]) :=
  c8_autoclose_and_idempotence (pathOf [mkMove ⟨0, 0⟩, mkLine ⟨4, 0⟩])
    (mkMove ⟨0, 0⟩) [mkLine ⟨4, 0⟩] rfl ⟨1, 1⟩ ⟨2, 2⟩
    (pathOf [mkMove ⟨0, 0⟩, mkClose]) (by decide)

/-- C9: `close()` on an empty path hits the fault branch (the `back()`
access on an empty vector), modelled as `none`; on every non-empty path it
never faults and appends CLOSE unless the last command is already CLOSE. -/
theorem c9_close_faults_only_on_empty (p : Path) (hp : p.commands_ = [])
    (r : Path) (c : Command) (cs : List Command) (hr : r.commands_ = c :: cs) :
    p.close? = none
    ∧ r.close? = some ⟨(if (r.commands_.getLast?).map Command.kind = some Kind.CLOSE
          then r.commands_ else r.commands_ ++ [mkClose]), r.direction_⟩ := by
  constructor
  · obtain ⟨pcs, d⟩ := p
    change pcs = [] at hp
    subst hp
    rfl
  · obtain ⟨rcs, d⟩ := r
    change rcs = c :: cs at hr
    subst hr
    show some (⟨closeCmds (c :: cs), d⟩ : Path) = _
    unfold closeCmds
    rfl

/-- Witness for C9 at the empty path and the one-command path
`[MOVE(1,1)]`. -/
theorem c9_close_faults_only_on_empty_witness :
    emptyPath.close? = none
    ∧ (pathOf [mkMove ⟨1, 1⟩]).close?
      = some ⟨(if ((pathOf [mkMove ⟨1, 1⟩]).commands_.getLast?).map Command.kind
                  = some Kind.CLOSE
               then (pathOf [mkMove ⟨1, 1⟩]).commands_
               else (pathOf [mkMove ⟨1, 1⟩]).commands_ ++ [mkClose]),
              (pathOf [mkMove ⟨1, 1⟩]).direction_⟩ :=
  c9_close_faults_only_on_empty emptyPath rfl (pathOf [mkMove ⟨1, 1⟩])
    (mkMove ⟨1, 1⟩) [] rfl

/-- C10: `direction()` neither reads nor writes the mutable cached
`direction_` field: its result is invariant under the cached value, the
call leaves the path state unchanged, and a second call on the returned
state yields the same result. -/
theorem c10_direction_frame (cs : List Command) (d d' : Direction) :
    (Path.directionRun ⟨cs, d⟩).1 = (Path.directionRun ⟨cs, d'⟩).1
    ∧ (Path.directionRun ⟨cs, d⟩).2 = ⟨cs, d⟩
    ∧ ((Path.directionRun ⟨cs, d⟩).2).directionRun.1
        = (Path.directionRun ⟨cs, d⟩).1 :=
  ⟨rfl, rfl, rfl⟩

end Takram
